import Mathlib

/-!
Verification of the aisknet core against its specification.

The development shallowly embeds the cache/eviction engine (`validateCache`),
the synchronized store cell operations (`createStore`), the retrieval step
(`similaritySearch` with ml-distance cosine similarity), the cancellable
streaming loop of the answer handler, and the two message-port handlers
(`handlerEmbeddings`, `handlerAnswer`).

Modelling conventions:
* JavaScript numbers that hold integers (timestamps, byte sizes) become `ℤ`;
  counts become `ℕ`; embedding-vector components become `ℝ`.
* The persisted key-value stores are association lists in the store's
  enumeration order.  localForage's `iterate` stops as soon as the callback
  returns any non-`undefined` value; an `async` callback returns a Promise,
  so the callback runs for the first entry only, and `iterate`'s promise
  adopts that callback's promise, so the one callback's awaited effects
  complete before `iterate` resolves.
* External capabilities (the serializer byte-size, the inference models, the
  token stream) are parameters; fallible calls return `Except JsErr`.
-/

namespace AIskNet

/-- Status flag set shared through the `status` cell (src store module). -/
structure Status where
  isAnswering : Bool
  isDownloading : Bool
  isEmbedding : Bool
  showStop : Bool
  hasTimeout : Bool
deriving DecidableEq

/-- Progress of an embedding run, published through the `progress` cell. -/
structure Progress where
  processed : ℕ
  total : ℕ
deriving DecidableEq

/-- An embedding record `{id, text, embeddings}`.  The vector payload is a
type parameter: the cache and the handlers treat it opaquely, the retrieval
engine instantiates it with `List ℝ`. -/
structure Embedding (V : Type) where
  id : String
  text : String
  embeddings : V
deriving DecidableEq

/-- A cache entry `{data, timestamp}` of the per-site embeddings cache. -/
structure CacheItem (V : Type) where
  data : List (Embedding V)
  timestamp : ℤ
deriving DecidableEq

/-- Result record of the nearest-neighbour search, generic in the score
type (`ℝ` in the program). -/
structure NearestResult (S : Type) where
  id : String
  text : String
  score : S
deriving DecidableEq

/-- A JavaScript thrown value as the handlers discriminate it:
an `Error` object carrying a message, or any other thrown value. -/
inductive JsErr
  | jsError (msg : String)
  | nonError
deriving DecidableEq

/-- `e instanceof Error ? e.message : default` -/
def errMessage (dflt : String) : JsErr → String
  | .jsError m => m
  | .nonError => dflt

/-! ## Cache manager (`validateCache` in the store module) -/

/-- 200 MB in bytes. -/
def maxCacheSize : ℤ := 200 * 1024 * 1024

/-- 10 minutes in milliseconds. -/
def maxCacheAge : ℤ := 1000 * 60 * 10

/-- The size-eviction loop: `while (newCacheSize > maxCacheSize)` pops the
first remaining entry of the size map and removes it.  When the map is
exhausted while the bound is still exceeded, the source destructures the
iterator value `undefined` and throws a `TypeError`; that path is `none`.
Returns the list of evicted keys. -/
def evictLoop : ℤ → List (String × ℤ) → Option (List String)
  | n, sizes =>
    if n ≤ maxCacheSize then some []
    else
      match sizes with
      | [] => none
      | (key, sz) :: rest => (evictLoop (n - sz) rest).map (fun ks => key :: ks)

/-- The sweep `embeddingIndexDB.iterate(async (item, key) => ...)` actually
performs: localForage invokes the callback on the first entry (enumeration
order) and then stops, because the `async` callback's returned Promise is
not `undefined`; entries beyond the first are never visited.  For that one
entry: if it is over-age it is removed (the awaited removal completes
before `iterate` resolves, whose promise adopts the callback's); otherwise,
when a candidate was supplied (`sized`), its serialized size is recorded in
the size map.  Returns (cache after the sweep, size map). -/
def iterateSweep {V : Type} (size : List (Embedding V) → ℕ) (now : ℤ) (sized : Bool)
    (cache : List (String × CacheItem V)) :
    List (String × CacheItem V) × List (String × ℤ) :=
  match cache with
  | [] => ([], [])
  | head :: rest =>
    if now - head.2.timestamp > maxCacheAge then (rest, [])
    else if sized then (head :: rest, [(head.1, (size head.2.data : ℤ))])
    else (head :: rest, [])

/-- `validateCache(embedIndex?)`: the (first-entry-only, see `iterateSweep`)
age/size sweep, then — only when a candidate is supplied — the
size-eviction loop over the size map.  `size` is the external
serialized-byte-size capability
(`TextEncoder().encode(JSON.stringify(data)).byteLength`), `now` is
`Date.now()` at the scan, `cache` is the store content in enumeration
order.  `none` is the thrown `TypeError` of the eviction loop. -/
def validateCache {V : Type} (size : List (Embedding V) → ℕ) (now : ℤ)
    (cache : List (String × CacheItem V)) (embedIndex : Option (List (Embedding V))) :
    Option (List (String × CacheItem V)) :=
  let swept := iterateSweep size now embedIndex.isSome cache
  match embedIndex with
  | none => some swept.1
  | some idx =>
    let cacheSize : ℤ := (swept.2.map (fun p => p.2)).sum
    (evictLoop (cacheSize + (size idx : ℤ)) swept.2).map
      (fun evicted => swept.1.filter (fun kv => decide (kv.1 ∉ evicted)))

section CacheLemmas

variable {V : Type}

/-- The eviction loop crashes exactly when even evicting every remaining
entry cannot reach the bound. -/
theorem evictLoop_eq_none_iff (sizes : List (String × ℤ)) (n : ℤ)
    (hpos : ∀ p ∈ sizes, 0 ≤ p.2) :
    evictLoop n sizes = none ↔ maxCacheSize < n - (sizes.map (fun p => p.2)).sum := by
  induction sizes generalizing n with
  | nil =>
    simp only [evictLoop, List.map_nil, List.sum_nil, sub_zero]
    split
    · simp only [reduceCtorEq, false_iff, not_lt]; omega
    · simp only [true_iff]; omega
  | cons head tail ih =>
    simp only [evictLoop]
    split
    · rename_i hle
      have h0 : (0:ℤ) ≤ head.2 := hpos head (List.mem_cons_self _ _)
      have hs : (0:ℤ) ≤ (tail.map (fun p => p.2)).sum :=
        List.sum_nonneg (by
          intro x hx
          obtain ⟨p, hp, rfl⟩ := List.mem_map.mp hx
          exact hpos p (List.mem_cons_of_mem _ hp))
      simp only [reduceCtorEq, false_iff, not_lt]
      simp only [List.map_cons, List.sum_cons]
      omega
    · rename_i hgt
      obtain ⟨k, sz⟩ := head
      rw [Option.map_eq_none', ih (n - sz) (fun p hp => hpos p (List.mem_cons_of_mem _ hp))]
      simp only [List.map_cons, List.sum_cons]
      constructor <;> intro h <;> omega

/-- Every entry of the size map the sweep builds is non-negative (it is a
cast byte count). -/
theorem iterateSweep_sizes_nonneg {V : Type} (size : List (Embedding V) → ℕ) (now : ℤ)
    (sized : Bool) (cache : List (String × CacheItem V)) :
    ∀ p ∈ (iterateSweep size now sized cache).2, 0 ≤ p.2 := by
  intro p hp
  match cache with
  | [] => cases hp
  | head :: rest =>
    rw [iterateSweep] at hp
    split at hp
    · cases hp
    · split at hp
      · rcases List.mem_singleton.mp hp with rfl
        exact Int.natCast_nonneg _
      · cases hp

/-- Claim C1 (code bug): with no surviving cache entry and a candidate whose
serialized size is one byte over `maxCacheSize`, the eviction loop pops the
empty size map and the source throws (`none`) instead of returning. -/
theorem validateCache_throws_on_oversized_candidate :
    validateCache (V := Unit) (fun _ => (200 * 1024 * 1024 + 1 : ℕ)) 0 [] (some []) = none := by
  rfl

/-- Claim C2 (code bug): a cache of a fresh first entry and a stale second
entry, swept with no candidate.  The async callback's Promise early-exits
localForage's iterate after the first entry, so the second entry is never
age-checked: the call returns with the over-age item (age 700000 ms >
`maxCacheAge`) still in the cache, while the claim says every over-age item
is absent after the call. -/
theorem validateCache_age_sweep_first_entry_only :
    validateCache (V := Unit) (fun _ => 0) 700000
        [("k1", ⟨[], 650000⟩), ("k2", ⟨[], 0⟩)] none =
      some [("k1", ⟨[], 650000⟩), ("k2", ⟨[], 0⟩)] ∧
    (700000 - (0 : ℤ) > maxCacheAge) := by
  refine ⟨rfl, by decide⟩

/-- Claim C3 (code bug): two fresh entries whose payloads each serialize to
150 MB (the empty candidate serializes to 2 bytes, `"[]"`).  Only the first
entry is sized — the async callback early-exits the iteration — so the
projected size is 150 MB + 2 B, under the bound: no eviction happens and
the call returns with both entries retained, yet the total serialized size
of the retained entries plus the candidate exceeds `maxCacheSize`, which
the claim says can never happen after a returning call. -/
theorem validateCache_size_bound_violated :
    validateCache (V := Unit) (fun l => if l.isEmpty then 2 else 157286400) 0
        [("k1", ⟨[⟨"", "", ()⟩], 0⟩), ("k2", ⟨[⟨"", "", ()⟩], 0⟩)] (some []) =
      some [("k1", ⟨[⟨"", "", ()⟩], 0⟩), ("k2", ⟨[⟨"", "", ()⟩], 0⟩)] ∧
    (([("k1", (⟨[⟨"", "", ()⟩], 0⟩ : CacheItem Unit)),
        ("k2", (⟨[⟨"", "", ()⟩], 0⟩ : CacheItem Unit))].map
          (fun kv => (((fun l => if List.isEmpty l then 2 else 157286400) kv.2.data : ℕ) :
            ℤ))).sum +
      (((fun l => if List.isEmpty l then 2 else 157286400) ([] : List (Embedding Unit)) :
        ℕ) : ℤ)) > maxCacheSize := by
  refine ⟨rfl, by decide⟩

end CacheLemmas

/-! ## Synchronized store (`createStore` in the store module)

A cell is modelled by the state it can reach in one context: the persisted
value for its name, the identities of the change listeners registered with
the persistence layer for its name, the in-memory (svelte writable) value,
and the local subscriber identities.  JavaScript closures are compared by
reference, so every closure literal evaluated at runtime is a fresh
identity; `nextId` is the allocator.  All the listeners behave alike
(`(c) => set(c.newValue)`), only their identities differ. -/

/-- State of one named cell in one execution context. -/
structure StoreState (T : Type) where
  persisted : Option T
  watchers : List ℕ
  localValue : T
  subscribers : List ℕ
  nextId : ℕ
deriving DecidableEq

/-- `init()`: reads the persisted value (default if absent), registers a
freshly created change-listener closure with `storage.watch`, and publishes
the loaded value locally. -/
def storeInit {T : Type} (dflt : T) (s : StoreState T) : StoreState T :=
  { s with
    localValue := s.persisted.getD dflt,
    watchers := s.watchers ++ [s.nextId],
    nextId := s.nextId + 1 }

/-- `destroy()`: calls `storage.unwatch` with a *newly allocated* closure
literal — the persistence layer removes the given callback by identity, and
the fresh closure was never registered, so nothing is removed — then removes
the persisted value.  Local subscribers are untouched. -/
def storeDestroy {T : Type} (s : StoreState T) : StoreState T :=
  { s with
    watchers := s.watchers.filter (fun w => decide (w ≠ s.nextId)),
    nextId := s.nextId + 1,
    persisted := none }

/-- `set(value)`: publishes locally, persists. -/
def storeSet {T : Type} (v : T) (s : StoreState T) : StoreState T :=
  { s with localValue := v, persisted := some v }

/-- `getStorage()`: side-effect-free read of the persisted value. -/
def storeGetStorage {T : Type} (dflt : T) (s : StoreState T) : T :=
  s.persisted.getD dflt

/-- Delivery of a remote change event for the cell's name: every registered
listener runs `set(c.newValue)`; with at least one listener the local value
becomes the new value. -/
def deliverRemoteChange {T : Type} (v : T) (s : StoreState T) : StoreState T :=
  if s.watchers.isEmpty then s else { s with localValue := v }

/-- Claim C6 (code bug): after `init()` then `destroy()` the change listener
registered by `init` is still registered (`unwatch` received a fresh closure,
not the registered one), so a remote change is still pushed to the local
value; the persisted value is removed and local subscribers are kept. -/
theorem storeDestroy_listener_leak :
    (storeDestroy (storeInit 0 (⟨none, [], 0, [7], 0⟩ : StoreState ℕ))).watchers = [0] ∧
    (storeDestroy (storeInit 0 (⟨none, [], 0, [7], 0⟩ : StoreState ℕ))).persisted = none ∧
    (storeDestroy (storeInit 0 (⟨none, [], 0, [7], 0⟩ : StoreState ℕ))).subscribers = [7] ∧
    (deliverRemoteChange 5
      (storeDestroy (storeInit 0 (⟨none, [], 0, [7], 0⟩ : StoreState ℕ)))).localValue = 5 := by
  decide

/-! ## Retrieval engine (`similaritySearch` in the answer-generator module)

`similarity.cosine` of ml-distance loops over the first vector's length,
accumulating `p = Σ aᵢbᵢ`, `p2 = Σ aᵢ²`, `q2 = Σ bᵢ²`, and returns
`p / (√p2 · √q2)`.  Floating-point numbers are idealised as `ℝ`; the
undefined-index (NaN) behaviour on a second vector shorter than the first
is outside the model, which truncates instead.

`Array.prototype.sort` with comparator `(a, b) => b.similarity - a.similarity`
is a stable descending sort on the similarity key.  A stable sort for a
total preorder has a unique output, modelled here by insertion sort
(`sortDesc`): an element is placed after every earlier element with a
greater-or-equal key. -/

/-- ml-distance cosine similarity (first argument drives the loop length). -/
noncomputable def cosineSimilarity (a b : List ℝ) : ℝ :=
  let p := (List.zipWith (fun x y => x * y) a b).sum
  let p2 := (a.map (fun x => x * x)).sum
  let q2 := ((b.take a.length).map (fun x => x * x)).sum
  p / (Real.sqrt p2 * Real.sqrt q2)

/-- `index.map((vector, idx) => ({similarity: f(vector), idx}))`, with the
running index made explicit. -/
def mapWithIdx {α S : Type} (f : α → S) : ℕ → List α → List (S × ℕ)
  | _, [] => []
  | i, a :: rest => (f a, i) :: mapWithIdx f (i + 1) rest

/-- Stable insertion of one scored element into a descending-sorted list:
it is placed after every element with a greater-or-equal score. -/
def insertDesc {S : Type} [LinearOrder S] (x : S × ℕ) : List (S × ℕ) → List (S × ℕ)
  | [] => [x]
  | y :: ys => if x.1 < y.1 then y :: insertDesc x ys else x :: y :: ys

/-- The stable descending sort on the score component. -/
def sortDesc {S : Type} [LinearOrder S] : List (S × ℕ) → List (S × ℕ)
  | [] => []
  | x :: xs => insertDesc x (sortDesc xs)

/-- Out-of-range access default (never hit: every stored idx is in range). -/
def defaultEmbedding : Embedding (List ℝ) := ⟨"", "", []⟩

/-- `similaritySearch(index, query, k)`: scores every entry with cosine
similarity against `query`, stable-sorts descending by score, keeps the
first `k`, and projects `{id, text, score}` through the stored index. -/
noncomputable def similaritySearch (index : List (Embedding (List ℝ))) (query : List ℝ)
    (k : ℕ) : List (NearestResult ℝ) :=
  let searches :=
    (sortDesc (mapWithIdx (fun v => cosineSimilarity query v.embeddings) 0 index)).take k
  searches.map (fun s =>
    ⟨(index.getD s.2 defaultEmbedding).id, (index.getD s.2 defaultEmbedding).text, s.1⟩)

section SortLemmas

variable {S : Type} [LinearOrder S]

/-- The score-descending order with ties broken by ascending stored index:
the strict linear order a stable descending sort realises. -/
def lexDesc (a b : S × ℕ) : Prop := b.1 < a.1 ∨ (a.1 = b.1 ∧ a.2 < b.2)

theorem insertDesc_perm (x : S × ℕ) (l : List (S × ℕ)) :
    (insertDesc x l).Perm (x :: l) := by
  induction l with
  | nil => exact List.Perm.refl _
  | cons y ys ih =>
    simp only [insertDesc]
    split
    · exact (ih.cons y).trans (List.Perm.swap x y ys)
    · exact List.Perm.refl _

theorem sortDesc_perm (l : List (S × ℕ)) : (sortDesc l).Perm l := by
  induction l with
  | nil => exact List.Perm.refl _
  | cons x xs ih => exact (insertDesc_perm x (sortDesc xs)).trans (ih.cons x)

theorem insertDesc_pairwise {x : S × ℕ} {l : List (S × ℕ)}
    (h : l.Pairwise lexDesc) (hx : ∀ y ∈ l, x.1 = y.1 → x.2 < y.2) :
    (insertDesc x l).Pairwise lexDesc := by
  induction l with
  | nil => simp [insertDesc, lexDesc]
  | cons y ys ih =>
    rw [List.pairwise_cons] at h
    simp only [insertDesc]
    split
    · rename_i hlt
      rw [List.pairwise_cons]
      refine ⟨?_, ih h.2 (fun z hz => hx z (List.mem_cons_of_mem _ hz))⟩
      intro z hz
      rcases List.mem_cons.mp ((insertDesc_perm x ys).mem_iff.mp hz) with rfl | hzys
      · exact Or.inl hlt
      · exact h.1 z hzys
    · rename_i hge
      push_neg at hge
      rw [List.pairwise_cons]
      constructor
      · intro z hz
        rcases List.mem_cons.mp hz with rfl | hzys
        · rcases lt_or_eq_of_le hge with hlt | hEq
          · exact Or.inl hlt
          · exact Or.inr ⟨hEq.symm, hx z (List.mem_cons_self _ _) hEq.symm⟩
        · rcases h.1 z hzys with hlt | ⟨hEq, _⟩
          · exact Or.inl (lt_of_lt_of_le hlt hge)
          · rcases lt_or_eq_of_le hge with hylt | hyEq
            · exact Or.inl (hEq ▸ hylt)
            · refine Or.inr ⟨(hyEq.symm.trans hEq), ?_⟩
              exact hx z (List.mem_cons_of_mem _ hzys) (hyEq.symm.trans hEq)
      · exact List.pairwise_cons.mpr h

theorem sortDesc_pairwise {l : List (S × ℕ)}
    (h : l.Pairwise (fun a b => a.2 < b.2)) : (sortDesc l).Pairwise lexDesc := by
  induction l with
  | nil => simp [sortDesc]
  | cons x xs ih =>
    rw [List.pairwise_cons] at h
    refine insertDesc_pairwise (ih h.2) ?_
    intro y hy _
    exact h.1 y ((sortDesc_perm xs).mem_iff.mp hy)

end SortLemmas

section MapWithIdxLemmas

variable {α S : Type}

theorem mapWithIdx_length (f : α → S) (i : ℕ) (l : List α) :
    (mapWithIdx f i l).length = l.length := by
  induction l generalizing i with
  | nil => rfl
  | cons a rest ih => simp [mapWithIdx, ih]

theorem mem_mapWithIdx_ge {f : α → S} {p : S × ℕ} :
    ∀ {i : ℕ} {l : List α}, p ∈ mapWithIdx f i l → i ≤ p.2 := by
  intro i l
  induction l generalizing i with
  | nil => intro h; cases h
  | cons a rest ih =>
    intro h
    rcases List.mem_cons.mp h with rfl | htail
    · exact le_refl _
    · exact Nat.le_of_succ_le (ih htail)

theorem mapWithIdx_pairwise_idx (f : α → S) (i : ℕ) (l : List α) :
    (mapWithIdx f i l).Pairwise (fun a b => a.2 < b.2) := by
  induction l generalizing i with
  | nil => simp [mapWithIdx]
  | cons a rest ih =>
    simp only [mapWithIdx]
    rw [List.pairwise_cons]
    exact ⟨fun y hy => Nat.lt_of_succ_le (mem_mapWithIdx_ge hy), ih (i + 1)⟩

theorem mem_mapWithIdx {f : α → S} {p : S × ℕ} (d : α) :
    ∀ {i : ℕ} {l : List α}, p ∈ mapWithIdx f i l →
      ∃ m, m < l.length ∧ p.2 = i + m ∧ p.1 = f (l.getD m d) := by
  intro i l
  induction l generalizing i with
  | nil => intro h; cases h
  | cons a rest ih =>
    intro h
    rcases List.mem_cons.mp h with rfl | htail
    · exact ⟨0, Nat.succ_pos _, by simp, by simp⟩
    · obtain ⟨m, hm, hidx, hval⟩ := ih htail
      exact ⟨m + 1, Nat.succ_lt_succ hm, by omega, by simpa using hval⟩

end MapWithIdxLemmas

/-- Claim C4: `similaritySearch` returns exactly `min k (index.length)`
results: the entries at a list of stored indices, sorted by strictly
descending score with ties broken by ascending original index, each result
carrying the id, text and cosine score of its index entry. -/
theorem similaritySearch_ordering (index : List (Embedding (List ℝ))) (query : List ℝ)
    (k : ℕ) :
    ∃ is : List ℕ,
      similaritySearch index query k = is.map (fun i =>
        ⟨(index.getD i defaultEmbedding).id, (index.getD i defaultEmbedding).text,
          cosineSimilarity query (index.getD i defaultEmbedding).embeddings⟩) ∧
      is.length = min k index.length ∧
      (∀ i ∈ is, i < index.length) ∧
      is.Pairwise (fun i j =>
        cosineSimilarity query (index.getD j defaultEmbedding).embeddings <
          cosineSimilarity query (index.getD i defaultEmbedding).embeddings ∨
        (cosineSimilarity query (index.getD i defaultEmbedding).embeddings =
          cosineSimilarity query (index.getD j defaultEmbedding).embeddings ∧ i < j)) := by
  classical
  have hmemA : ∀ p ∈ sortDesc (mapWithIdx (fun v => cosineSimilarity query v.embeddings) 0 index),
      p.2 < index.length ∧
        p.1 = cosineSimilarity query (index.getD p.2 defaultEmbedding).embeddings := by
    intro p hp
    have hps : p ∈ mapWithIdx (fun v => cosineSimilarity query v.embeddings) 0 index :=
      (sortDesc_perm _).mem_iff.mp hp
    obtain ⟨m, hm, hidx, hval⟩ := mem_mapWithIdx defaultEmbedding hps
    have hidx2 : p.2 = m := by omega
    subst hidx2
    exact ⟨hm, hval⟩
  have hmemS : ∀ p ∈ (sortDesc
        (mapWithIdx (fun v => cosineSimilarity query v.embeddings) 0 index)).take k,
      p ∈ sortDesc (mapWithIdx (fun v => cosineSimilarity query v.embeddings) 0 index) :=
    fun p hp => (List.take_sublist _ _).mem hp
  refine ⟨((sortDesc
      (mapWithIdx (fun v => cosineSimilarity query v.embeddings) 0 index)).take k).map
        (fun s => s.2), ?_, ?_, ?_, ?_⟩
  · rw [List.map_map]
    apply List.map_congr_left
    intro s hs
    obtain ⟨_, hval⟩ := hmemA s (hmemS s hs)
    simp only [Function.comp]
    rw [hval]
  · rw [List.length_map, List.length_take, (sortDesc_perm _).length_eq, mapWithIdx_length]
  · intro i hi
    obtain ⟨s, hs, rfl⟩ := List.mem_map.mp hi
    exact (hmemA s (hmemS s hs)).1
  · rw [List.pairwise_map]
    have searchesPW : ((sortDesc
        (mapWithIdx (fun v => cosineSimilarity query v.embeddings) 0 index)).take k).Pairwise
          lexDesc :=
      (sortDesc_pairwise (mapWithIdx_pairwise_idx _ 0 index)).sublist (List.take_sublist _ _)
    refine searchesPW.imp_of_mem ?_
    intro a b ha hb hab
    obtain ⟨_, haval⟩ := hmemA a (hmemS a ha)
    obtain ⟨_, hbval⟩ := hmemA b (hmemS b hb)
    rcases hab with hlt | ⟨hEq, hidx⟩
    · exact Or.inl (haval ▸ hbval ▸ hlt)
    · exact Or.inr ⟨haval ▸ hbval ▸ hEq, hidx⟩

section ScoreBounds

/-- A sum of squares is non-negative. -/
theorem sum_sq_nonneg (l : List ℝ) : 0 ≤ (l.map (fun x => x * x)).sum := by
  apply List.sum_nonneg
  intro z hz
  obtain ⟨w, _, rfl⟩ := List.mem_map.mp hz
  exact mul_self_nonneg w

/-- Cauchy–Schwarz for the truncated list sums computed by
`cosineSimilarity`. -/
theorem list_inner_sq_le (a b : List ℝ) :
    ((List.zipWith (fun x y => x * y) a b).sum) ^ 2 ≤
      ((a.map (fun x => x * x)).sum) * (((b.take a.length).map (fun x => x * x)).sum) := by
  induction a generalizing b with
  | nil => simp
  | cons x xs ih =>
    cases b with
    | nil => simp
    | cons y ys =>
      simp only [List.zipWith_cons_cons, List.sum_cons, List.map_cons, List.length_cons,
        List.take_succ_cons]
      have hp := ih ys
      have hP2 := sum_sq_nonneg xs
      have hQ2 := sum_sq_nonneg (ys.take xs.length)
      set p := (List.zipWith (fun x y => x * y) xs ys).sum with hpdef
      set P2 := (xs.map (fun x => x * x)).sum with hP2def
      set Q2 := ((ys.take xs.length).map (fun x => x * x)).sum with hQ2def
      have h2' : (0 : ℝ) ≤ P2 * Q2 - p ^ 2 := by linarith
      rcases eq_or_lt_of_le hQ2 with hQz | hQpos
      · have hp0 : p = 0 := by nlinarith [sq_nonneg p]
        rw [hp0, ← hQz]
        nlinarith [mul_nonneg hP2 (sq_nonneg y)]
      · nlinarith [sq_nonneg (x * Q2 - y * p), mul_nonneg (sq_nonneg y) h2',
          mul_nonneg hQ2 h2', hQpos]

/-- The cosine score of any pair of vectors lies in `[-1, 1]` (with the
0-for-0/0 division convention of the real-number idealisation). -/
theorem cosineSimilarity_mem_Icc (a b : List ℝ) :
    -1 ≤ cosineSimilarity a b ∧ cosineSimilarity a b ≤ 1 := by
  have hp := list_inner_sq_le a b
  have h2 := sum_sq_nonneg a
  have h3 := sum_sq_nonneg (b.take a.length)
  set p := (List.zipWith (fun x y => x * y) a b).sum with hpdef
  set P2 := (a.map (fun x => x * x)).sum with hP2def
  set Q2 := ((b.take a.length).map (fun x => x * x)).sum with hQ2def
  have hcos : cosineSimilarity a b = p / (Real.sqrt P2 * Real.sqrt Q2) := rfl
  have hD : 0 ≤ Real.sqrt P2 * Real.sqrt Q2 :=
    mul_nonneg (Real.sqrt_nonneg _) (Real.sqrt_nonneg _)
  have habs : |p| ≤ Real.sqrt P2 * Real.sqrt Q2 := by
    have h1 : |p| = Real.sqrt (p ^ 2) := (Real.sqrt_sq_eq_abs p).symm
    have h2' : Real.sqrt (p ^ 2) ≤ Real.sqrt (P2 * Q2) := Real.sqrt_le_sqrt hp
    rw [Real.sqrt_mul h2] at h2'
    exact h1 ▸ h2'
  rw [hcos]
  rcases eq_or_lt_of_le hD with hzero | hpos
  · rw [← hzero, div_zero]
    norm_num
  · have := abs_div p (Real.sqrt P2 * Real.sqrt Q2)
    have hle : |p / (Real.sqrt P2 * Real.sqrt Q2)| ≤ 1 := by
      rw [abs_div, abs_of_pos hpos]
      exact (div_le_one hpos).mpr habs
    exact abs_le.mp hle

/-- A vector's cosine score against itself is 1 whenever its dot product
with itself is non-zero. -/
theorem cosineSimilarity_self (v : List ℝ) (h : (v.map (fun x => x * x)).sum ≠ 0) :
    cosineSimilarity v v = 1 := by
  have hzip : List.zipWith (fun x y => x * y) v v = v.map (fun x => x * x) := by
    induction v with
    | nil => rfl
    | cons x xs ih => simp [List.zipWith_cons_cons, ih]
  have htake : v.take v.length = v := List.take_length v
  have hS : 0 ≤ (v.map (fun x => x * x)).sum := sum_sq_nonneg v
  show (List.zipWith (fun x y => x * y) v v).sum /
      (Real.sqrt ((v.map (fun x => x * x)).sum) *
        Real.sqrt (((v.take v.length).map (fun x => x * x)).sum)) = 1
  rw [hzip, htake, Real.mul_self_sqrt hS, div_self h]

/-- Claim C9, amended: every returned score lies in `[-1, 1]`, and a query
identical to an indexed vector scores 1 provided the vector's dot product
with itself is non-zero. -/
theorem similarity_score_bounds :
    (∀ (index : List (Embedding (List ℝ))) (query : List ℝ) (k : ℕ),
      (similaritySearch index query k).Forall (fun r => -1 ≤ r.score ∧ r.score ≤ 1)) ∧
    (∀ v : List ℝ, (v.map (fun x => x * x)).sum ≠ 0 → cosineSimilarity v v = 1) := by
  constructor
  · intro index query k
    rw [List.forall_iff_forall_mem]
    intro r hr
    obtain ⟨s, hs, rfl⟩ := List.mem_map.mp hr
    have hsorted : s ∈ sortDesc (mapWithIdx (fun v => cosineSimilarity query v.embeddings)
        0 index) := (List.take_sublist _ _).mem hs
    obtain ⟨m, _, _, hval⟩ := mem_mapWithIdx defaultEmbedding
      ((sortDesc_perm _).mem_iff.mp hsorted)
    show -1 ≤ s.1 ∧ s.1 ≤ 1
    rw [hval]
    exact cosineSimilarity_mem_Icc _ _
  · exact cosineSimilarity_self

/-- Witness for the amended C9 at the concrete vector `[1]`. -/
theorem similarity_score_bounds_witness : cosineSimilarity [(1 : ℝ)] [(1 : ℝ)] = 1 :=
  similarity_score_bounds.2 [(1 : ℝ)] (by norm_num)

/-- Counterexample to C9 as stated: for the zero vector `[0]` indexed and
queried, the returned score is 0, not 1 (the source divides 0 by 0; in
floating point the score is NaN, likewise different from 1). -/
theorem similarity_zero_vector_counterexample :
    (similaritySearch [⟨"0", "a", [(0 : ℝ)]⟩] [(0 : ℝ)] 1).map (fun r => r.score) =
      [(0 : ℝ)] ∧ (0 : ℝ) ≠ 1 := by
  constructor
  · simp [similaritySearch, mapWithIdx, sortDesc, insertDesc, cosineSimilarity]
  · norm_num

end ScoreBounds

/-! ## Answer streaming loop (`for await` in the answer-generator module)

Each loop iteration awaits the next chunk of the token stream (which, being
an external call, may instead throw), then reads the shared `currStop`
flag; on `true` it breaks before appending; otherwise it appends every
piece of the chunk to the accumulated output, applies the cosmetic
`replace(" .", ".")` (first occurrence only), and publishes the
accumulation to the `output` cell.  A stream is a list of
(awaited chunk, observed flag value) iterations; the result is the caught
error (if the await threw), the final accumulation, and the published
values in order. -/

/-- JavaScript `s.replace(" .", ".")`: replaces only the first occurrence. -/
def collapseSpaceDot : List Char → List Char
  | ' ' :: '.' :: rest => '.' :: rest
  | c :: cs => c :: collapseSpaceDot cs
  | [] => []

/-- The streaming loop of `handlerAnswer`. -/
def runStream : List (Except JsErr (List (List Char)) × Bool) → List Char →
    Option JsErr × List Char × List (List Char)
  | [], acc => (none, acc, [])
  | (item, stopObs) :: rest, acc =>
    match item with
    | .error e => (some e, acc, [])
    | .ok pieces =>
      if stopObs then (none, acc, [])
      else
        let acc2 := collapseSpaceDot (pieces.foldl (fun o piece => o ++ piece) acc)
        let r := runStream rest acc2
        (r.1, r.2.1, acc2 :: r.2.2)

/-- Claim C5: once the stop flag is observed `true` at an iteration, the
loop's outcome — final accumulated output, published values, caught
error — is exactly that of the iterations before it: the pieces of that
iteration and everything after it are never appended, and the output
published so far is retained. -/
theorem runStream_stop_flag (pre : List (Except JsErr (List (List Char)) × Bool))
    (pcs : List (List Char)) (post : List (Except JsErr (List (List Char)) × Bool))
    (acc : List Char) :
    runStream (pre ++ (Except.ok pcs, true) :: post) acc = runStream pre acc := by
  induction pre generalizing acc with
  | nil => rfl
  | cons hd tl ih =>
    obtain ⟨item, stopObs⟩ := hd
    cases item with
    | error e => rfl
    | ok pieces =>
      cases stopObs with
      | true => rfl
      | false =>
        rw [List.cons_append]
        show (let acc2 := collapseSpaceDot (pieces.foldl (fun o piece => o ++ piece) acc)
              let r := runStream (tl ++ (Except.ok pcs, true) :: post) acc2
              (r.1, r.2.1, acc2 :: r.2.2)) =
            (let acc2 := collapseSpaceDot (pieces.foldl (fun o piece => o ++ piece) acc)
             let r := runStream tl acc2
             (r.1, r.2.1, acc2 :: r.2.2))
        simp only [ih]

/-! ## Embedding-port handler (`handlerEmbeddings` in the embeddings-generator
module)

The handler's observable behaviour is a final state, the list of external
events it performed (model initialisation, per-chunk processing, the
`validateCache` call, the cache write), and the exception its `catch`
clause absorbed (`none` when no step threw).  The model-initialisation and
per-chunk inference calls are fallible external capabilities. -/

/-- Message thrown when the eviction loop destructures the exhausted map
iterator's `undefined`. -/
def iterUndefinedMsg : String :=
  "undefined is not iterable (cannot read property Symbol(Symbol.iterator))"

/-- External capabilities of the embeddings handler. -/
structure EmbCaps (V : Type) where
  initModel : Except JsErr Unit
  processChunk : String → Except JsErr V

/-- World state the embeddings handler touches. -/
structure EmbState (V : Type) where
  status : Status
  progressCell : Progress
  errorCell : String
  cache : List (String × CacheItem V)
  reloadScheduled : Bool
deriving DecidableEq

/-- External events of the embeddings handler, in order. -/
inductive EmbEvent (V : Type)
  | modelInit
  | chunkProcessed (q : String)
  | validateCall (candidate : List (Embedding V))
  | cacheWrite (site : String) (item : CacheItem V)
deriving DecidableEq

/-- `embeddingIndexDB.setItem(site, item)`: replace the value under an
existing key, else append. -/
def upsert {V : Type} (key : String) (item : CacheItem V)
    (cache : List (String × CacheItem V)) : List (String × CacheItem V) :=
  if cache.any (fun kv => decide (kv.1 = key)) then
    cache.map (fun kv => if kv.1 = key then (key, item) else kv)
  else cache ++ [(key, item)]

/-- The loop of `processEmbeddings`: one inference call per chunk, a
progress publication after each success; the first failure aborts. -/
def embedChunks {V : Type} (caps : EmbCaps V) (total : ℕ) :
    List String → ℕ → EmbState V → (EmbState V × List (EmbEvent V)) × Except JsErr (List V)
  | [], _, s => ((s, []), .ok [])
  | q :: rest, done, s =>
    match caps.processChunk q with
    | .error e => ((s, []), .error e)
    | .ok v =>
      let s1 := { s with progressCell := ⟨done + 1, total⟩ }
      let res := embedChunks caps total rest (done + 1) s1
      ((res.1.1, .chunkProcessed q :: res.1.2), res.2.map (fun vs => v :: vs))

/-- The `try` block of the embeddings handler: init the model, process the
chunks, build the cache item (`String(i)`, `kb[i]`, the result vector,
`Date.now()` at `tItem`), validate the cache with the new data as
candidate, store the item, clear the error cell.  The third component is
the exception the `catch` clause will receive. -/
def tryEmbed {V : Type} (size : List (Embedding V) → ℕ) (tItem tValidate : ℤ)
    (caps : EmbCaps V) (kb : List String) (site : String) (s : EmbState V) :
    EmbState V × List (EmbEvent V) × Option JsErr :=
  match caps.initModel with
  | .error e => (s, [], some e)
  | .ok _ =>
    let res := embedChunks caps kb.length kb 0 s
    match res.2 with
    | .error e => (res.1.1, .modelInit :: res.1.2, some e)
    | .ok results =>
      let data : List (Embedding V) :=
        (results.enum).map (fun p => ⟨toString p.1, kb.getD p.1 "", p.2⟩)
      let item : CacheItem V := ⟨data, tItem⟩
      match validateCache size tValidate res.1.1.cache (some data) with
      | none =>
        (res.1.1, .modelInit :: res.1.2 ++ [.validateCall data],
          some (.jsError iterUndefinedMsg))
      | some cache2 =>
        ({ res.1.1 with cache := upsert site item cache2, errorCell := "" },
          .modelInit :: res.1.2 ++ [.validateCall data, .cacheWrite site item], none)

/-- `catch` (set the error cell from the thrown value, schedule the reload)
followed by `finally` (clear `isEmbedding` and `hasTimeout`). -/
def finalizeEmbeddings {V : Type} :
    EmbState V × List (EmbEvent V) × Option JsErr →
      EmbState V × List (EmbEvent V) × Option JsErr
  | (s, evs, caught) =>
    let s1 := match caught with
      | some e => { s with errorCell := errMessage "Couldn\x27t process embeddings." e,
                           reloadScheduled := true }
      | none => s
    ({ s1 with status := { s1.status with isEmbedding := false, hasTimeout := false } },
      evs, caught)

/-- The embeddings message-port handler.  The `kb.length === 1 && kb[0] === ""`
sentinel returns before the `try`, clearing only `isEmbedding`. -/
def handlerEmbeddings {V : Type} (size : List (Embedding V) → ℕ) (tItem tValidate : ℤ)
    (caps : EmbCaps V) (kb : List String) (site : String) (s : EmbState V) :
    EmbState V × List (EmbEvent V) × Option JsErr :=
  if kb.length = 1 ∧ kb.getD 0 "x" = "" then
    ({ s with status := { s.status with isEmbedding := false } }, [], none)
  else
    finalizeEmbeddings (tryEmbed size tItem tValidate caps kb site s)

/-! ## Answer-port handler (`handlerAnswer` in the answer-generator module) -/

/-- External capabilities of the answer handler: the stored `topK`, the
three model initialisations, the hypothetical-answer and query-embedding
inference calls, the token stream with the per-iteration stop-flag
observations, and the similarity search routine it invokes. -/
structure AnsCaps (V S : Type) where
  topK : ℕ
  hydeInit : Except JsErr Unit
  hydeProcess : String → Except JsErr String
  embInit : Except JsErr Unit
  embedQuery : String → Except JsErr V
  answerInit : Except JsErr Unit
  stream : List (Except JsErr (List (List Char)) × Bool)
  search : List (Embedding V) → V → ℕ → List (NearestResult S)

/-- World state the answer handler touches. -/
structure AnsState (V : Type) where
  status : Status
  errorCell : String
  promptCell : String
  outputCell : List Char
  stopCell : Bool
  cache : List (String × CacheItem V)
  reloadScheduled : Bool
deriving DecidableEq

/-- Numbered context blocks:
`nearests.map((n, idx) => "${idx+1}) ${n.text}" + trailing period).join("\n\n")`. -/
def contextOf {S : Type} (nearests : List (NearestResult S)) : String :=
  String.intercalate "\n\n" ((nearests.enum).map (fun p =>
    toString (p.1 + 1) ++ ") " ++ p.2.text ++ (if p.2.text.endsWith "." then "" else ".")))

/-- The retrieval phase: entered only when a cache entry with non-empty
data exists for the site; hyde expansion, query embedding, similarity
search, context formatting.  Any failing step aborts the `try` block. -/
def retrieveContext {V S : Type} (caps : AnsCaps V S) (question : String)
    (embedIndex : Option (CacheItem V)) : Except JsErr String :=
  match embedIndex with
  | none => .ok ""
  | some item =>
    if item.data.isEmpty then .ok ""
    else
      match caps.hydeInit with
      | .error e => .error e
      | .ok _ =>
        match caps.hydeProcess (question ++ " Short answer:") with
        | .error e => .error e
        | .ok hyde =>
          match caps.embInit with
          | .error e => .error e
          | .ok _ =>
            match caps.embedQuery (question ++ "\n" ++ hyde) with
            | .error e => .error e
            | .ok qvec => .ok (contextOf (caps.search item.data qvec caps.topK))

/-- The `try` block of the answer handler: cache lookup, retrieval,
prompt composition and publication, answer-model initialisation,
`showStop := true`, then the streaming loop; on success the stop flag is
reset and the error cell cleared. -/
def tryAnswer {V S : Type} (caps : AnsCaps V S) (question site : String)
    (s : AnsState V) : AnsState V × Option JsErr :=
  match retrieveContext caps question (s.cache.lookup site) with
  | .error e => (s, some e)
  | .ok context =>
    let currentPrompt := if context = "" then question else
      "Context:\n\n" ++ context ++ "\n\nQuestion: " ++ question ++ "\nAnswer:"
    let sP := { s with promptCell := currentPrompt }
    match caps.answerInit with
    | .error e => (sP, some e)
    | .ok _ =>
      let sS := { sP with status := { sP.status with showStop := true } }
      let r := runStream caps.stream []
      let sO := { sS with outputCell := r.2.2.getLastD sS.outputCell }
      match r.1 with
      | some e => (sO, some e)
      | none => ({ sO with stopCell := false, errorCell := "" }, none)

/-- `catch` (set the error cell, schedule the reload) followed by `finally`
(clear `isAnswering`, `showStop`, `hasTimeout`). -/
def finalizeAnswer {V : Type} : AnsState V × Option JsErr → AnsState V × Option JsErr
  | (s, caught) =>
    let s1 := match caught with
      | some e => { s with errorCell := errMessage "Couldn\x27t find an answer." e,
                           reloadScheduled := true }
      | none => s
    ({ s1 with status :=
        { s1.status with isAnswering := false, showStop := false, hasTimeout := false } },
      caught)

/-- The answer message-port handler. -/
def handlerAnswer {V S : Type} (caps : AnsCaps V S) (question site : String)
    (s : AnsState V) : AnsState V × Option JsErr :=
  finalizeAnswer (tryAnswer caps question site s)

/-- Claim C7: the `[""]` sentinel request clears `isEmbedding`, performs no
external event at all (no model call, no `validateCache`, no cache write),
changes nothing else, and catches nothing. -/
theorem handlerEmbeddings_sentinel {V : Type} (size : List (Embedding V) → ℕ)
    (tItem tValidate : ℤ) (caps : EmbCaps V) (site : String) (s : EmbState V) :
    handlerEmbeddings size tItem tValidate caps [""] site s =
      ({ s with status := { s.status with isEmbedding := false } }, [], none) := by
  rfl

section HandlerBoundary

/-- The `finally` clause clears the answer-status flags on every path. -/
theorem finalizeAnswer_status {V : Type} (p : AnsState V × Option JsErr) :
    (finalizeAnswer p).1.status.isAnswering = false ∧
    (finalizeAnswer p).1.status.showStop = false ∧
    (finalizeAnswer p).1.status.hasTimeout = false := by
  obtain ⟨s, caught⟩ := p
  cases caught <;> exact ⟨rfl, rfl, rfl⟩

/-- The caught exception is returned unchanged by catch/finally. -/
theorem finalizeAnswer_caught {V : Type} (p : AnsState V × Option JsErr) :
    (finalizeAnswer p).2 = p.2 := by
  obtain ⟨s, caught⟩ := p
  cases caught <;> rfl

/-- The `catch` clause stores the converted message of the thrown value. -/
theorem finalizeAnswer_error {V : Type} (s : AnsState V) (e : JsErr) :
    (finalizeAnswer (s, some e)).1.errorCell =
      errMessage "Couldn\x27t find an answer." e := rfl

/-- The embeddings `finally` clause clears both flags on every try path. -/
theorem finalizeEmbeddings_status {V : Type}
    (p : EmbState V × List (EmbEvent V) × Option JsErr) :
    (finalizeEmbeddings p).1.status.isEmbedding = false ∧
    (finalizeEmbeddings p).1.status.hasTimeout = false := by
  obtain ⟨s, evs, caught⟩ := p
  cases caught <;> exact ⟨rfl, rfl⟩

theorem finalizeEmbeddings_caught {V : Type}
    (p : EmbState V × List (EmbEvent V) × Option JsErr) :
    (finalizeEmbeddings p).2.2 = p.2.2 := by
  obtain ⟨s, evs, caught⟩ := p
  cases caught <;> rfl

theorem finalizeEmbeddings_error {V : Type} (s : EmbState V) (evs : List (EmbEvent V))
    (e : JsErr) :
    (finalizeEmbeddings (s, evs, some e)).1.errorCell =
      errMessage "Couldn\x27t process embeddings." e := rfl

/-- Claim C8, amended: both handlers absorb every exception thrown inside
their `try` block, converting it to the error-cell message `errMessage`
produces (the thrown `Error`'s own message — possibly empty — or the
non-empty fixed fallback for a non-`Error` value); the answer handler
clears `isAnswering`, `showStop` and `hasTimeout` on every termination
path, the embeddings handler clears `isEmbedding` and `hasTimeout` on
every path through its `try` block, while its `[""]`-sentinel path clears
only `isEmbedding`. -/
theorem handlers_error_boundary :
    (∀ (V S : Type) (caps : AnsCaps V S) (question site : String) (s : AnsState V),
      ((handlerAnswer caps question site s).1.status.isAnswering = false ∧
        (handlerAnswer caps question site s).1.status.showStop = false ∧
        (handlerAnswer caps question site s).1.status.hasTimeout = false) ∧
      (∀ e, (handlerAnswer caps question site s).2 = some e →
        (handlerAnswer caps question site s).1.errorCell =
          errMessage "Couldn\x27t find an answer." e)) ∧
    (∀ (V : Type) (size : List (Embedding V) → ℕ) (tItem tValidate : ℤ)
      (caps : EmbCaps V) (kb : List String) (site : String) (s : EmbState V),
      ((handlerEmbeddings size tItem tValidate caps kb site s).1.status.isEmbedding =
        false) ∧
      (¬ (kb.length = 1 ∧ kb.getD 0 "x" = "") →
        (handlerEmbeddings size tItem tValidate caps kb site s).1.status.hasTimeout =
          false) ∧
      (∀ e, (handlerEmbeddings size tItem tValidate caps kb site s).2.2 = some e →
        (handlerEmbeddings size tItem tValidate caps kb site s).1.errorCell =
          errMessage "Couldn\x27t process embeddings." e)) := by
  constructor
  · intro V S caps question site s
    refine ⟨finalizeAnswer_status _, ?_⟩
    intro e he
    rw [handlerAnswer] at he ⊢
    rw [finalizeAnswer_caught] at he
    rcases htr : tryAnswer caps question site s with ⟨s1, caught⟩
    rw [htr] at he
    cases caught with
    | none => cases he
    | some e2 =>
      obtain rfl : e2 = e := by simpa using he
      exact finalizeAnswer_error s1 e2
  · intro V size tItem tValidate caps kb site s
    by_cases hs : kb.length = 1 ∧ kb.getD 0 "x" = ""
    · refine ⟨?_, fun hn => absurd hs hn, ?_⟩
      · rw [handlerEmbeddings, if_pos hs]
      · intro e he
        rw [handlerEmbeddings, if_pos hs] at he
        cases he
    · have hrw : handlerEmbeddings size tItem tValidate caps kb site s =
          finalizeEmbeddings (tryEmbed size tItem tValidate caps kb site s) := by
        rw [handlerEmbeddings, if_neg hs]
      refine ⟨?_, fun _ => ?_, ?_⟩
      · rw [hrw]; exact (finalizeEmbeddings_status _).1
      · rw [hrw]; exact (finalizeEmbeddings_status _).2
      · intro e he
        rw [hrw] at he ⊢
        rw [finalizeEmbeddings_caught] at he
        rcases htr : tryEmbed size tItem tValidate caps kb site s with ⟨s1, evs, caught⟩
        rw [htr] at he
        cases caught with
        | none => cases he
        | some e2 =>
          obtain rfl : e2 = e := by simpa using he
          exact finalizeEmbeddings_error s1 evs e2

/-- Witness for the amended C8: concrete runs of both handlers — an
answer run whose model initialisation throws an `Error` with message
"boom", and an embeddings run on an empty (non-sentinel) request. -/
theorem handlers_error_boundary_witness :
    ((handlerAnswer (V := Unit) (S := Unit)
        ⟨0, .ok (), fun _ => .ok "", .ok (), fun _ => .ok (),
          .error (.jsError "boom"), [], fun _ _ _ => []⟩ "q" "x"
        ⟨⟨false, false, false, false, false⟩, "", "", [], false, [], false⟩).1.status.isAnswering
      = false) ∧
    ((handlerEmbeddings (V := Unit) (fun _ => 0) 0 0 ⟨.ok (), fun _ => .ok ()⟩ [] "x"
        ⟨⟨false, false, false, false, false⟩, ⟨0, 0⟩, "", [], false⟩).1.status.hasTimeout
      = false) ∧
    ((handlerAnswer (V := Unit) (S := Unit)
        ⟨0, .ok (), fun _ => .ok "", .ok (), fun _ => .ok (),
          .error (.jsError "boom"), [], fun _ _ _ => []⟩ "q" "x"
        ⟨⟨false, false, false, false, false⟩, "", "", [], false, [], false⟩).1.errorCell
      = errMessage "Couldn\x27t find an answer." (.jsError "boom")) :=
  ⟨(handlers_error_boundary.1 Unit Unit _ "q" "x" _).1.1,
    (handlers_error_boundary.2 Unit (fun _ => 0) 0 0 _ [] "x" _).2.1 (by decide),
    (handlers_error_boundary.1 Unit Unit _ "q" "x" _).2 (.jsError "boom") (by decide)⟩

/-- Counterexample to C8 as stated: (a) the embeddings handler's sentinel
path — a successful termination path — leaves a previously set
`hasTimeout` flag uncleared; (b) a thrown `Error` with an empty message
leaves the error cell set to the empty string, not a non-empty message,
even though a step threw. -/
theorem handlers_error_counterexample :
    ((handlerEmbeddings (V := Unit) (fun _ => 0) 0 0 ⟨.ok (), fun _ => .ok ()⟩ [""] "X"
        ⟨⟨false, false, true, false, true⟩, ⟨0, 0⟩, "", [], false⟩).1.status.hasTimeout
      = true) ∧
    ((handlerAnswer (V := Unit) (S := Unit)
        ⟨0, .ok (), fun _ => .ok "", .ok (), fun _ => .ok (), .error (.jsError ""), [],
          fun _ _ _ => []⟩ "q" "x"
        ⟨⟨false, false, false, false, false⟩, "seed", "", [], false, [], false⟩).2
      = some (.jsError "")) ∧
    ((handlerAnswer (V := Unit) (S := Unit)
        ⟨0, .ok (), fun _ => .ok "", .ok (), fun _ => .ok (), .error (.jsError ""), [],
          fun _ _ _ => []⟩ "q" "x"
        ⟨⟨false, false, false, false, false⟩, "seed", "", [], false, [], false⟩).1.errorCell
      = "") := by
  refine ⟨rfl, rfl, rfl⟩

end HandlerBoundary

/-- Claim C10: an empty `kb` (zero elements) is not the sentinel: the
handler initialises the model, processes no chunk, runs `validateCache`
with the empty embedding list as candidate, and then writes a `CacheItem`
with empty data and the fresh timestamp for the site; nothing is caught. -/
theorem handlerEmbeddings_empty_kb {V : Type} (size : List (Embedding V) → ℕ)
    (tItem tValidate : ℤ) (caps : EmbCaps V) (site : String) (s : EmbState V)
    (hm : caps.initModel = .ok ()) (hsz : ((size [] : ℕ) : ℤ) ≤ maxCacheSize) :
    ∃ cache2, validateCache size tValidate s.cache (some []) = some cache2 ∧
      handlerEmbeddings size tItem tValidate caps [] site s =
        ({ s with
            cache := upsert site ⟨[], tItem⟩ cache2
            errorCell := ""
            status := { s.status with isEmbedding := false, hasTimeout := false } },
          [.modelInit, .validateCall [], .cacheWrite site ⟨[], tItem⟩], none) := by
  have hpos : ∀ p ∈ (iterateSweep size tValidate (some ([] : List (Embedding V))).isSome
      s.cache).2, 0 ≤ p.2 := iterateSweep_sizes_nonneg size tValidate _ s.cache
  have hne : evictLoop
      ((((iterateSweep size tValidate (some ([] : List (Embedding V))).isSome s.cache).2).map
          (fun p => p.2)).sum + (size [] : ℤ))
      ((iterateSweep size tValidate (some ([] : List (Embedding V))).isSome s.cache).2) ≠
        none := by
    intro hcontra
    rw [evictLoop_eq_none_iff _ _ hpos] at hcontra
    omega
  obtain ⟨ks, hks⟩ := Option.ne_none_iff_exists'.mp hne
  have hvc : validateCache size tValidate s.cache (some []) =
      some ((iterateSweep size tValidate (some ([] : List (Embedding V))).isSome
        s.cache).1.filter (fun kv => decide (kv.1 ∉ ks))) := by
    simp only [validateCache]
    rw [hks]
    rfl
  refine ⟨_, hvc, ?_⟩
  rw [handlerEmbeddings, if_neg (by decide)]
  simp only [tryEmbed, hm, embedChunks, List.enum_nil, List.map_nil]
  rw [hvc]
  simp [finalizeEmbeddings]

/-- Witness for C10: empty knowledge base, empty cache, trivially succeeding
capabilities. -/
theorem handlerEmbeddings_empty_kb_witness :
    ((⟨.ok (), fun _ => .ok ()⟩ : EmbCaps Unit).initModel = .ok ()) ∧
    ((((fun _ => (0 : ℕ)) ([] : List (Embedding Unit)) : ℕ) : ℤ) ≤ maxCacheSize) ∧
    (∃ cache2,
      validateCache (V := Unit) (fun _ => (0 : ℕ)) 6 [] (some []) = some cache2 ∧
      handlerEmbeddings (V := Unit) (fun _ => (0 : ℕ)) 5 6 ⟨.ok (), fun _ => .ok ()⟩ [] "x"
          ⟨⟨false, false, true, false, true⟩, ⟨0, 0⟩, "", [], false⟩ =
        ({ (⟨⟨false, false, true, false, true⟩, ⟨0, 0⟩, "", [], false⟩ : EmbState Unit) with
            cache := upsert "x" ⟨[], 5⟩ cache2
            errorCell := ""
            status := { (⟨false, false, true, false, true⟩ : Status) with
                          isEmbedding := false, hasTimeout := false } },
          [.modelInit, .validateCall [], .cacheWrite "x" ⟨[], 5⟩], none)) :=
  ⟨rfl, by decide,
    handlerEmbeddings_empty_kb (fun _ => (0 : ℕ)) 5 6 ⟨.ok (), fun _ => .ok ()⟩ "x"
      ⟨⟨false, false, true, false, true⟩, ⟨0, 0⟩, "", [], false⟩ rfl (by decide)⟩

end AIskNet
